import Mathlib

/-!
Verification development for the markprompt ingestion/sync pipeline and
hybrid-search snippet layer.

The TypeScript source is shallowly embedded in Lean:
* JavaScript strings are handled through executable helpers over `List Char`
  (structural recursion only, so that all definitions reduce in the kernel);
* external collaborators (the `minimatch` glob library, Node's `crypto`
  SHA-256, the `remark`/`strip-markdown` pipeline, the platform `URL` parser,
  the embedding processor `processFile`) are passed as parameters or modelled
  from their documented contracts, as noted in the doc comments;
* the stateful training pipeline of `SystemStatusButton.tsx` is embedded as
  explicit state passing, with ghost instrumentation fields (`fetches`,
  `submissions`, `callbacks`, `errorItems`) recording the calls the real code
  makes to its collaborators.
-/

namespace Markprompt

/-! ## JavaScript string helpers (executable, structural) -/

/-- JS `\w` character class: `[A-Za-z0-9_]`. -/
def isWordChar (c : Char) : Bool :=
  c.isAlphanum || c = '_'

/-- JS `\s` for the inputs handled here: space, tab, newline, carriage return. -/
def isWsChar (c : Char) : Bool :=
  c = ' ' || c = '\t' || c = '\n' || c = '\r'

/-- JS `String.prototype.startsWith`. -/
def jsStartsWith (s pre : String) : Bool :=
  pre.toList.isPrefixOf s.toList

/-- JS `String.prototype.endsWith`. -/
def jsEndsWith (s suf : String) : Bool :=
  suf.toList.isSuffixOf s.toList

/-- Substring containment on character lists (JS `String.prototype.includes`). -/
def containsSubList (sub : List Char) : List Char → Bool
  | [] => sub.isEmpty
  | c :: rest => sub.isPrefixOf (c :: rest) || containsSubList sub rest

/-- JS `String.prototype.includes`. -/
def jsIncludes (s sub : String) : Bool :=
  containsSubList sub.toList s.toList

/-- JS `String.prototype.split` with a single-character separator. -/
def splitCharAux (sep : Char) : List Char → List Char → List (List Char)
  | [], acc => [acc.reverse]
  | c :: rest, acc =>
    if c = sep then acc.reverse :: splitCharAux sep rest []
    else splitCharAux sep rest (c :: acc)

/-- JS `s.split(sep)` for a one-character separator. -/
def jsSplitChar (s : String) (sep : Char) : List String :=
  (splitCharAux sep s.toList []).map String.mk

/-- `path.split('/').slice(-1)[0]`: the last path component. -/
def lastPathComponent (path : String) : String :=
  (jsSplitChar path '/').getLastD ""

/-! ## `getFileExtension` / `isSupportedFileType` (src/unnamed/part_000) -/

/-- `getFileExtension`: the regex `/\.(\w*)$/` matches when the characters after
the last `.` are all word characters (possibly none), anchored at the end. -/
def getFileExtension (pathOrName : String) : Option String :=
  let rev := pathOrName.toList.reverse
  let suffix := rev.takeWhile (fun c => c ≠ '.')
  if suffix.length < rev.length then
    if suffix.all isWordChar then some (String.mk suffix.reverse) else none
  else none

/-- `SUPPORTED_EXTENSIONS` from the source. -/
def SUPPORTED_EXTENSIONS : List String :=
  ["md", "mdx", "mdoc", "rst", "txt", "html", "htm"]

/-- `isSupportedFileType`: no extension (including the JS-falsy empty
extension) counts as supported, otherwise the extension must be listed. -/
def isSupportedFileType (pathOrName : String) : Bool :=
  match getFileExtension pathOrName with
  | none => true
  | some e => if e = "" then true else SUPPORTED_EXTENSIONS.contains e

/-! ## URL helpers (src/unnamed/part_000) -/

/-- Splits a character list at the first `://`, returning the part before and
after it.  Helper for the schema-handling utilities. -/
def splitSchemaAux : List Char → List Char → Option (List Char × List Char)
  | acc, ':' :: '/' :: '/' :: rest => some (acc.reverse, rest)
  | acc, c :: rest => splitSchemaAux (c :: acc) rest
  | _, [] => none

/-- Modelled from the spec: `removeSchema` lives in `utils.edge`, which is not
among the provided sources.  It strips a leading `scheme://` (or a bare leading
`//`) from a URL, per its use in `getUrlHostname` and `getLabelForSource`. -/
def removeSchema (url : String) : String :=
  if jsStartsWith url "//" then String.mk (url.toList.drop 2)
  else
    match splitSchemaAux [] url.toList with
    | some (pre, rest) =>
      if pre.length > 0 && pre.all isWordChar then String.mk rest else url
    | none => url

/-- `getUrlHostname`: `removeSchema(url).split('/')[0]`. -/
def getUrlHostname (url : String) : String :=
  (jsSplitChar (removeSchema url) '/').headD ""

/-- `getSchema`: `hostname.split('://')[0]`. -/
def getSchema (hostname : String) : String :=
  match splitSchemaAux [] hostname.toList with
  | some (pre, _) => String.mk pre
  | none => hostname

/-- The regex `/^https?:\/\/[a-zA-Z]+/` used by `toNormalizedOrigin`,
`isHrefFromBaseUrl` and `completeHrefWithBaseUrl`. -/
def hasHttpSchemaAlpha (s : String) : Bool :=
  (jsStartsWith s "http://" && firstIsAlpha (s.toList.drop 7)) ||
  (jsStartsWith s "https://" && firstIsAlpha (s.toList.drop 8))
where
  firstIsAlpha : List Char → Bool
    | c :: _ => c.isAlpha
    | [] => false

/-- Parsed components of a URL, mirroring the platform `URL` object fields the
source reads (`protocol`, `hostname`, `pathname`). -/
structure URLParts where
  protocol : List Char
  hostname : List Char
  pathname : List Char
deriving DecidableEq

/-- Modelled from the spec: the platform WHATWG `URL` parser (`new URL(url)`)
is not repository code.  This models its behaviour on plain `http(s)` URLs:
the hostname runs to the first `/`, `?` or `#`; the pathname runs from there
to the first `?` or `#` and defaults to `/`; other inputs fail to parse. -/
def parseURL (url : String) : Option URLParts :=
  let cs := url.toList
  if ("https://".toList).isPrefixOf cs then parseAfter "https:".toList (cs.drop 8)
  else if ("http://".toList).isPrefixOf cs then parseAfter "http:".toList (cs.drop 7)
  else none
where
  parseAfter (proto rest : List Char) : Option URLParts :=
    if rest.isEmpty then none
    else
      let hostname := rest.takeWhile (fun c => !(c = '/' || c = '?' || c = '#'))
      let tail := rest.drop hostname.length
      let path := tail.takeWhile (fun c => !(c = '?' || c = '#'))
      some ⟨proto, hostname, if path.isEmpty then ['/'] else path⟩

/-- `getUrlPath`: `new URL(url).pathname`, `undefined` when parsing throws. -/
def getUrlPath (url : String) : Option String :=
  (parseURL url).map (fun p => String.mk p.pathname)

/-- `urlHasPath`: the pathname exists, is nonempty and is not `/`. -/
def urlHasPath (url : String) : Bool :=
  match getUrlPath url with
  | some p => p ≠ "" && p ≠ "/"
  | none => false

/-- `replace(/\/+$/, '')`: strip trailing slashes. -/
def stripTrailingSlashes (s : String) : String :=
  String.mk (s.toList.reverse.dropWhile (fun c => c = '/')).reverse

/-- `toNormalizedUrl` (with the default `useInsecureSchema = false`): add the
schema when missing, then rebuild `protocol//hostname pathname` without
trailing slashes; on parse failure the URL is returned as is. -/
def toNormalizedUrl (url : String) : String :=
  let url :=
    if !(jsStartsWith url "http://" || jsStartsWith url "https://") then
      "https://" ++ url
    else url
  match parseURL url with
  | some p =>
    stripTrailingSlashes
      (String.mk p.protocol ++ "//" ++ String.mk p.hostname ++ String.mk p.pathname)
  | none => url

/-- `toNormalizedOrigin` (with the default `useInsecureSchema = false`). -/
def toNormalizedOrigin (url : String) : String :=
  if hasHttpSchemaAlpha url then getSchema url ++ "://" ++ getUrlHostname url
  else "https://" ++ getUrlHostname url

/-- `isHrefFromBaseUrl`: absolute http(s) links must normalize to an extension
of the base URL; root-relative links must extend the base path; schemeless
relative links are accepted; everything else (e.g. `mailto:`) falls through to
the JS `undefined`, modelled as `false` since the result is used in a filter. -/
def isHrefFromBaseUrl (baseUrl href : String) : Bool :=
  if hasHttpSchemaAlpha href then jsStartsWith (toNormalizedUrl href) baseUrl
  else if jsStartsWith href "/" then
    jsStartsWith href ((getUrlPath baseUrl).getD "/")
  else if !(jsIncludes href ":") then true
  else false

/-- `completeHrefWithBaseUrl`. -/
def completeHrefWithBaseUrl (baseUrl href : String) : String :=
  if jsStartsWith href "/" then toNormalizedOrigin baseUrl ++ href
  else if hasHttpSchemaAlpha href then href
  else baseUrl ++ "/" ++ href

/-! ## Glob filtering (src/unnamed/part_000) -/

/-- `matchesGlobs`, parameterized by the external `minimatch` library. -/
def matchesGlobs (minimatchF : String → String → Bool)
    (path : String) (globs : List String) : Bool :=
  globs.any (fun g => minimatchF path g)

/-- `shouldIncludeFileWithPath`: for website sources, root URLs get a trailing
slash appended before extension inspection; dotfiles, dot-directories and
unsupported file types are rejected; otherwise the path must match an include
glob and no exclude glob, with default-deny. -/
def shouldIncludeFileWithPath (minimatchF : String → String → Bool)
    (path0 : String) (includeGlobs excludeGlobs : List String)
    (isWebsiteSource : Bool) : Bool :=
  let path :=
    if isWebsiteSource then
      if !urlHasPath path0 && !jsEndsWith path0 "/" then path0 ++ "/" else path0
    else path0
  if jsStartsWith path "." || jsIncludes path "/." || !isSupportedFileType path then
    false
  else if matchesGlobs minimatchF path includeGlobs then
    !matchesGlobs minimatchF path excludeGlobs
  else false

/-! ## KWIC snippet extraction (src/pages/api/v1/search/index.ts) -/

/-- JS `String.prototype.trim`: strip whitespace at both ends. -/
def jsTrim (cs : List Char) : List Char :=
  ((cs.dropWhile isWsChar).reverse.dropWhile isWsChar).reverse

/-- Helper for `collapseWs`; the flag records being inside a whitespace run. -/
def collapseWsAux (inRun : Bool) : List Char → List Char
  | [] => []
  | c :: rest =>
    if isWsChar c then
      if inRun then collapseWsAux true rest
      else ' ' :: collapseWsAux true rest
    else c :: collapseWsAux false rest

/-- `replace(/\s+/g, ' ')`: collapse every whitespace run to one space. -/
def collapseWs (cs : List Char) : List Char := collapseWsAux false cs

/-- `replace(/\\n/g, ' ')`: the source regex matches a literal backslash
followed by `n` (two characters), replaced by a space. -/
def replaceBackslashN : List Char → List Char
  | '\\' :: 'n' :: rest => ' ' :: replaceBackslashN rest
  | c :: rest => c :: replaceBackslashN rest
  | [] => []

/-- JS `String.prototype.indexOf` for a substring: first index at which the
pattern is a prefix of the remaining text, `none` for `-1`. -/
def indexOfSub (pat l : List Char) : Option Nat :=
  (List.range (l.length + 1)).find? (fun i => pat.isPrefixOf (l.drop i))

/-- `Math.round(maxLength / 2)` for a natural `maxLength`. -/
def halfRound (n : Nat) : Nat := (n + 1) / 2

/-- Helper for `splitWs`; the flag records being inside a whitespace run, and
`acc` accumulates the current piece in reverse. -/
def splitWsAux (inRun : Bool) : List Char → List Char → List (List Char)
  | [], acc => [acc.reverse]
  | c :: rest, acc =>
    if isWsChar c then
      if inRun then splitWsAux true rest acc
      else acc.reverse :: splitWsAux true rest []
    else splitWsAux false rest (c :: acc)

/-- JS `split(/\s+/)`: pieces between maximal whitespace runs, keeping an
empty leading/trailing piece when the text starts/ends with whitespace. -/
def splitWs (cs : List Char) : List (List Char) := splitWsAux false cs []

/-- `Array.prototype.join(' ')`. -/
def joinSpace : List (List Char) → List Char
  | [] => []
  | [w] => w
  | w :: ws => w ++ ' ' :: joinSpace ws

/-- `createKWICSnippet`, parameterized by the external `remark`/`strip-markdown`
pipeline (`stripRemark`, applied to the trimmed content with
`remove: ['heading', 'inlineCode']`).  The rest follows the source: collapse
whitespace, replace literal `\n` pairs, find the query; if absent return the
first `maxLength` characters, else take the window of `maxLength` characters
centred on the occurrence and drop its first and last whitespace-delimited
word when there are more than 3 words. -/
def createKWICSnippet (stripRemark : List Char → List Char)
    (content searchTerm : List Char) (maxLength : Nat := 200) : List Char :=
  let plainText := replaceBackslashN (collapseWs (stripRemark (jsTrim content)))
  match indexOfSub searchTerm plainText with
  | none => plainText.take maxLength
  | some index =>
    let rawSnippet :=
      (plainText.take (index + halfRound maxLength)).drop (index - halfRound maxLength)
    let words := splitWs rawSnippet
    if words.length > 3 then
      joinSpace ((words.drop 1).take (words.length - 2))
    else
      joinSpace words

/-! ## Training pipeline (src/components/ui/SystemStatusButton.tsx)

The provider's mutable React state (`state`, `errors`, `stopFlag`) is embedded
as explicit state passing.  The bounded pool (`pLimit(5)`) dispatches items in
index order; the model runs them in dispatch order, which is faithful for the
per-item properties stated below (completion order within the window is
unspecified and does not affect them); the concurrency bound itself is treated
separately by the scheduler model at the end of this section.  Crucially,
`p-limit` does not clear its queue when one task rejects: every queued task
still runs, which the model reflects by folding over all indices and merely
recording whether some task threw. -/

/-- `TrainingState` from the source. -/
inductive TrainingState where
  | idle : TrainingState
  | fetching_data : TrainingState
  | loading (progress : Option Nat) (total : Option Nat)
      (filename : Option String) (message : Option String) : TrainingState
  | cancel_requested : TrainingState
  | complete (errors : List String) : TrainingState
deriving DecidableEq

/-- `Source['type']` from the source types. -/
inductive SourceType where
  | github | motif | website | fileUpload | apiUpload
deriving DecidableEq, BEq

/-- Outcome of one `processFile` call against the external embedding
processor: success, the distinguished 403 `API_ERROR_ID_CONTENT_TOKEN_QUOTA_EXCEEDED`
failure, or any other failure with its serialized message. -/
inductive ProcResult where
  | success : ProcResult
  | quotaExceeded : ProcResult
  | otherError (msg : String) : ProcResult
deriving DecidableEq

/-- Environment of one `generateEmbeddings` invocation: the source being
synced, the project config globs, and the external collaborators
(`minimatch`, `crypto`'s `createChecksum`, the loaded checksum rows, the
adapter callbacks `getFilePath`/`getFileNameContent`, and the embedding
processor outcome per index).  `getFileNameContent` returns `none` when the
adapter resolves no content (e.g. `fetchPageContent` returning `null`). -/
structure SyncEnv where
  sourceId : String
  sourceType : SourceType
  includeGlobs : List String
  excludeGlobs : List String
  minimatchF : String → String → Bool
  createChecksum : String → String
  checksums : List (String × String)
  numFiles : Nat
  getFilePath : Nat → String
  getFileNameContent : Nat → Option (String × String)
  processResult : Nat → ProcResult

/-- Provider state plus ghost instrumentation.  `trainingState`, `errors` and
`stopFlag` mirror the React state and ref; `fetches`, `submissions`,
`callbacks` and `errorItems` record, per `(sourceId, index)`, the calls made
to `getFileNameContent`, `processFile`, `onFileProcessed` and `setErrors`. -/
structure SyncState where
  trainingState : TrainingState
  errors : List String
  stopFlag : Bool
  fetches : List (String × Nat)
  submissions : List (String × Nat)
  callbacks : List (String × Nat)
  errorItems : List (String × Nat)
deriving DecidableEq

/-- The provider's initial state. -/
def initialSyncState : SyncState :=
  ⟨TrainingState.idle, [], false, [], [], [], []⟩

/-- `_generateEmbeddingForFile`: one item of a sync.  Returns the new state
and whether the call threw (it rethrows exactly the quota-exceeded failure).
Follows the source line by line: stop-flag check; path resolution and
filtering; loading-state update; checksum lookup; content resolution (recorded
in `fetches`; an absent result returns early); checksum comparison;
`processFile` submission with quota rethrow or per-file error recording; and
the `onFileProcessed` callback. -/
def _generateEmbeddingForFile (env : SyncEnv) (index : Nat) (st : SyncState) :
    SyncState × Bool :=
  if st.stopFlag then (st, false)
  else
    let path := env.getFilePath index
    if !shouldIncludeFileWithPath env.minimatchF path env.includeGlobs
        env.excludeGlobs (env.sourceType == SourceType.website) then
      (st, false)
    else
      let st := { st with
        trainingState := TrainingState.loading (some (index + 1))
          (some env.numFiles) (some (lastPathComponent path)) none }
      let prevChecksum :=
        (env.checksums.find? (fun c => c.1 == path)).map (fun c => c.2)
      match env.getFileNameContent index with
      | none => ({ st with fetches := st.fetches ++ [(env.sourceId, index)] }, false)
      | some (name, content) =>
        let st := { st with fetches := st.fetches ++ [(env.sourceId, index)] }
        let currentChecksum := env.createChecksum content
        if prevChecksum = some currentChecksum then (st, false)
        else
          let st := { st with submissions := st.submissions ++ [(env.sourceId, index)] }
          match env.processResult index with
          | ProcResult.success =>
            ({ st with callbacks := st.callbacks ++ [(env.sourceId, index)] }, false)
          | ProcResult.quotaExceeded =>
            ({ st with callbacks := st.callbacks ++ [(env.sourceId, index)],
                       trainingState := TrainingState.idle }, true)
          | ProcResult.otherError msg =>
            ({ st with
                errors := st.errors ++
                  ["Error processing " ++ name ++ ": " ++ msg],
                errorItems := st.errorItems ++ [(env.sourceId, index)],
                callbacks := st.callbacks ++ [(env.sourceId, index)] }, false)

/-- Runs the pool's task queue in dispatch order, as `p-limit` does even after
a rejection; the Boolean records whether any task threw (the rejection that
`generateEmbeddings` later catches). -/
def runItems (env : SyncEnv) : List Nat → SyncState → SyncState × Bool
  | [], st => (st, false)
  | i :: rest, st =>
    let r := _generateEmbeddingForFile env i st
    let r' := runItems env rest r.1
    (r'.1, r.2 || r'.2)

/-- `generateEmbeddings`: reset the error list and the stop flag, load the
checksum rows (already in `env`), run every index through the pool, swallow
any rejection (the source's `catch (e) { console.error(e); }`), and finish in
the `idle` state.  Note that it catches the quota rejection rather than
propagating it. -/
def generateEmbeddings (env : SyncEnv) (st : SyncState) : SyncState :=
  let st := { st with errors := [], stopFlag := false }
  let r := runItems env (List.range env.numFiles) st
  { r.1 with trainingState := TrainingState.idle }

/-- `stopGeneratingEmbeddings`: set the cooperative cancellation flag and show
the `cancel_requested` state. -/
def stopGeneratingEmbeddings (st : SyncState) : SyncState :=
  { st with stopFlag := true, trainingState := TrainingState.cancel_requested }

/-- `trainAllSources`: enter `fetching_data`, sync each source in order (the
adapter work of `_trainSource` is abstracted into each source's `SyncEnv`),
and return to `idle`.  Since `generateEmbeddings` never throws, the loop
always reaches every source. -/
def trainAllSources (envs : List SyncEnv) (st : SyncState) : SyncState :=
  let st := { st with trainingState := TrainingState.fetching_data }
  let st := envs.foldl (fun s env => generateEmbeddings env s) st
  { st with trainingState := TrainingState.idle }

/-! ## Website crawler (src/components/ui/SystemStatusButton.tsx, website case) -/

/-- `uniq` from lodash: keep the first occurrence of each element. -/
def uniqAux : List String → List String → List String
  | _, [] => []
  | seen, x :: xs =>
    if x ∈ seen then uniqAux seen xs else x :: uniqAux (x :: seen) xs

/-- lodash `uniq`. -/
def uniq (xs : List String) : List String := uniqAux [] xs

/-- Environment of one website link-discovery crawl: the normalized base URL,
the raw start URL (`data.url`), and the hrefs contributed by each page — the
composition of `fetchPageContent` and `extractLinksFromHtml`, both external
(`integrations/website`); a page that fails the path filter or the fetch
contributes no hrefs. -/
structure CrawlEnv where
  baseUrl : String
  startUrl : String
  discoverHrefs : String → List String

/-- The crawl loop's two mutable lists. -/
structure CrawlState where
  processedLinks : List String
  linksToProcess : List String
deriving DecidableEq

/-- One iteration of the `while (linksToProcess.length > 0)` body: ingest the
whole frontier as one batch, extract and deduplicate hrefs from the fetched
pages, keep those from the base URL, complete them against the base, mark the
frontier as processed, and keep only not-yet-processed links as the next
frontier.  (`filter(isPresent)` in the source is a no-op because
`completeHrefWithBaseUrl` returns a string on every branch.) -/
def crawlRound (env : CrawlEnv) (s : CrawlState) : CrawlState :=
  let discoveredLinks :=
    ((uniq (s.linksToProcess.flatMap env.discoverHrefs)).filter
        (fun href => isHrefFromBaseUrl env.baseUrl href)).map
      (fun href => completeHrefWithBaseUrl env.baseUrl href)
  let processedLinks := s.processedLinks ++ s.linksToProcess
  { processedLinks := processedLinks,
    linksToProcess := discoveredLinks.filter (fun link => !processedLinks.contains link) }

/-- The crawl loop with explicit fuel; the loop exits when the frontier is
empty, and the termination theorem below shows a concrete fuel bound after
which the frontier is provably empty. -/
def crawl (env : CrawlEnv) : Nat → CrawlState → CrawlState
  | 0, s => s
  | fuel + 1, s =>
    if s.linksToProcess.isEmpty then s else crawl env fuel (crawlRound env s)

/-- The loop's initial state: `processedLinks = []`, `linksToProcess = [data.url]`. -/
def crawlInit (startUrl : String) : CrawlState := ⟨[], [startUrl]⟩

/-- Pages reachable by the crawl's own discovery relation: the start URL, and
the completion of any base-URL href found on a reachable page. -/
inductive Reachable (env : CrawlEnv) : String → Prop
  | start : Reachable env env.startUrl
  | step {u href : String} : Reachable env u → href ∈ env.discoverHrefs u →
      isHrefFromBaseUrl env.baseUrl href = true →
      Reachable env (completeHrefWithBaseUrl env.baseUrl href)

/-- Sitemap mode: `fetchSitemapUrls` result truncated by `.slice(0, 10)`; the
crawl loop is not entered. -/
def sitemapCandidates (sitemapUrls : List String) : List String :=
  sitemapUrls.take 10

/-- The URLs a website sync dispatches for ingestion: in sitemap mode exactly
the first 10 sitemap URLs, as one batch with no link discovery; otherwise the
pages processed by the link-discovery loop. -/
def websiteDispatchedUrls (isSitemap : Bool) (sitemapUrls : List String)
    (env : CrawlEnv) (fuel : Nat) : List String :=
  if isSitemap then sitemapCandidates sitemapUrls
  else (crawl env fuel (crawlInit env.startUrl)).processedLinks

/-! ## Bounded worker pool (`pLimit(5)` in `generateEmbeddings`)

`p-limit` is an external library; its documented contract — at most
`concurrencyLimit` tasks active at once, a queued task starting only when the
active count is below the limit — is modelled as a transition system over
task indices, and the concurrency bound is proved over every reachable
interleaving. -/

/-- The pool width passed to `pLimit` in `generateEmbeddings`. -/
def concurrencyLimit : Nat := 5

/-- A pool configuration: tasks not yet dispatched, tasks in flight, and
finished tasks. -/
structure PoolState where
  pending : List Nat
  inFlight : List Nat
  finished : List Nat

/-- Modelled from the spec: the `p-limit` scheduler (external library).  A
pending task may start only while fewer than `concurrencyLimit` tasks are in
flight; an in-flight task may finish at any time. -/
inductive PoolStep : PoolState → PoolState → Prop
  | dispatch {i : Nat} {rest inF fin : List Nat}
      (hroom : inF.length < concurrencyLimit) :
      PoolStep ⟨i :: rest, inF, fin⟩ ⟨rest, i :: inF, fin⟩
  | finish {pend inF fin : List Nat} {i : Nat} (hmem : i ∈ inF) :
      PoolStep ⟨pend, inF, fin⟩ ⟨pend, inF.erase i, i :: fin⟩

/-- The pool as `generateEmbeddings` creates it: all `numFiles` indices
queued, nothing running. -/
def poolInit (numFiles : Nat) : PoolState := ⟨List.range numFiles, [], []⟩

/-! ## Predicates used by the crawler theorems -/

/-- A finite universe of links containing the start URL and closed under the
crawl's own discover–filter–complete step: the formal counterpart of "finite
same-origin link graph". -/
def ClosedUniverse (env : CrawlEnv) (U : List String) : Prop :=
  env.startUrl ∈ U ∧
  ∀ u ∈ U, ∀ href ∈ env.discoverHrefs u,
    isHrefFromBaseUrl env.baseUrl href = true →
    completeHrefWithBaseUrl env.baseUrl href ∈ U

/-- Every href in the graph is already in completed form, so completion is the
identity on it; this rules out two distinct hrefs of one round resolving to
the same URL. -/
def IdentityCompletion (env : CrawlEnv) (U : List String) : Prop :=
  ∀ u ∈ U, ∀ href ∈ env.discoverHrefs u,
    completeHrefWithBaseUrl env.baseUrl href = href

/-- Loop invariant of the crawl: both lists stay inside the universe, the
frontier never contains an already-processed link, the start URL is never
lost, and every processed page's discovered links are already processed or
queued. -/
def CrawlInv (env : CrawlEnv) (U : List String) (s : CrawlState) : Prop :=
  s.processedLinks ⊆ U ∧ s.linksToProcess ⊆ U ∧
  (∀ l ∈ s.linksToProcess, l ∉ s.processedLinks) ∧
  env.startUrl ∈ s.processedLinks ++ s.linksToProcess ∧
  (∀ u ∈ s.processedLinks, ∀ href ∈ env.discoverHrefs u,
    isHrefFromBaseUrl env.baseUrl href = true →
    completeHrefWithBaseUrl env.baseUrl href ∈ s.processedLinks ++ s.linksToProcess)

/-! ## Concrete instances used by the per-claim counterexamples and witnesses -/

/-- A glob matcher accepting everything (the behaviour of `minimatch` with the
pattern `**`). -/
def mmEverything : String → String → Bool := fun _ _ => true

/-- `minimatch` restricted to the two facts the `docs/**` examples need. -/
def mmDocs : String → String → Bool :=
  fun p g => g == "docs/**" && jsStartsWith p "docs/"

/-- First source of the quota scenario: two fresh markdown files, the first
submission answered with the quota-exceeded failure, the second with success. -/
def envQuotaA : SyncEnv :=
  { sourceId := "s1", sourceType := SourceType.github,
    includeGlobs := ["**"], excludeGlobs := [],
    minimatchF := mmEverything, createChecksum := fun s => s, checksums := [],
    numFiles := 2,
    getFilePath := fun i => if i == 0 then "a.md" else "b.md",
    getFileNameContent := fun i =>
      if i == 0 then some ("a.md", "contentA") else some ("b.md", "contentB"),
    processResult := fun i =>
      if i == 0 then ProcResult.quotaExceeded else ProcResult.success }

/-- Second source of the quota scenario: one fresh file, submission succeeds. -/
def envQuotaB : SyncEnv :=
  { envQuotaA with
    sourceId := "s2", numFiles := 1,
    getFilePath := fun _ => "c.md",
    getFileNameContent := fun _ => some ("c.md", "contentC"),
    processResult := fun _ => ProcResult.success }

/-- A website item whose content fetch resolves to nothing
(`fetchPageContent` returning `null`): it reaches content resolution but
never invokes the per-file callback. -/
def envNoContent : SyncEnv :=
  { sourceId := "s7", sourceType := SourceType.website,
    includeGlobs := ["**"], excludeGlobs := [],
    minimatchF := mmEverything, createChecksum := fun s => s, checksums := [],
    numFiles := 1,
    getFilePath := fun _ => "https://example.com/p.html",
    getFileNameContent := fun _ => none,
    processResult := fun _ => ProcResult.success }

/-- One unchanged file: the stored checksum row equals the checksum of the
current content. -/
def envUnchanged : SyncEnv :=
  { sourceId := "s3", sourceType := SourceType.github,
    includeGlobs := ["**"], excludeGlobs := [],
    minimatchF := mmEverything, createChecksum := fun s => s,
    checksums := [("a.md", "contentA")],
    numFiles := 1,
    getFilePath := fun _ => "a.md",
    getFileNameContent := fun _ => some ("a.md", "contentA"),
    processResult := fun _ => ProcResult.success }

/-- One fresh file whose submission succeeds, for the cancellation and
callback witnesses. -/
def envFresh : SyncEnv :=
  { sourceId := "s4", sourceType := SourceType.github,
    includeGlobs := ["**"], excludeGlobs := [],
    minimatchF := mmEverything, createChecksum := fun s => s, checksums := [],
    numFiles := 1,
    getFilePath := fun _ => "a.md",
    getFileNameContent := fun _ => some ("a.md", "contentA"),
    processResult := fun _ => ProcResult.success }

/-- A one-page site whose root page links to the same target twice, once as a
root-relative href and once as an absolute href. -/
def envDupHref : CrawlEnv :=
  { baseUrl := "https://example.com", startUrl := "https://example.com",
    discoverHrefs := fun u =>
      if u == "https://example.com" then ["/a", "https://example.com/a"] else [] }

/-- A two-page cyclic site (A links to B, B links to A) with hrefs already in
completed form, used to witness the amended crawl theorem. -/
def envCycle : CrawlEnv :=
  { baseUrl := "https://example.com", startUrl := "https://example.com",
    discoverHrefs := fun u =>
      if u == "https://example.com" then ["https://example.com/b"]
      else if u == "https://example.com/b" then ["https://example.com"]
      else [] }

/-- The two pages of `envCycle`. -/
def cycleUniverse : List String :=
  ["https://example.com", "https://example.com/b"]

/-- The path normalization applied by `shouldIncludeFileWithPath` for website
sources: root URLs get a trailing slash before extension inspection. -/
def normalizeWebsitePath (isWebsiteSource : Bool) (path0 : String) : String :=
  if isWebsiteSource then
    if !urlHasPath path0 && !jsEndsWith path0 "/" then path0 ++ "/" else path0
  else path0

/-- The path filter restated in the spec's shape, to be compared with the
source-shaped `shouldIncludeFileWithPath`: after website normalization, the
path must not be a dotfile, must not contain a dot-directory, must be of a
supported file type, and must match at least one include glob and no exclude
glob (default-deny). -/
def shouldIncludeFileWithPathSpec (minimatchF : String → String → Bool)
    (path0 : String) (includeGlobs excludeGlobs : List String)
    (isWebsiteSource : Bool) : Bool :=
  let p := normalizeWebsitePath isWebsiteSource path0
  !jsStartsWith p "." && !jsIncludes p "/." && isSupportedFileType p &&
    (matchesGlobs minimatchF p includeGlobs &&
     !matchesGlobs minimatchF p excludeGlobs)

/-- The stripper value used to witness the KWIC example: the output of
`remark` with `strip-markdown` (`remove: ['heading', 'inlineCode']`) on the
example document. -/
def stripConst : List Char → List Char :=
  fun _ => "The quick brown fox jumps over the lazy dog\n".toList

/-! # Theorems -/

/-! ## KWIC snippet lemmas -/

theorem joinSpace_cons_le (w : List Char) (ws : List (List Char)) :
    (joinSpace (w :: ws)).length ≤ w.length + 1 + (joinSpace ws).length := by
  cases ws with
  | nil => simp [joinSpace]
  | cons w2 ws2 => simp [joinSpace]; omega

theorem joinSpace_cons_of_ne (w : List Char) (ws : List (List Char))
    (hne : ws ≠ []) : joinSpace (w :: ws) = w ++ ' ' :: joinSpace ws := by
  cases ws with
  | nil => exact absurd rfl hne
  | cons w2 ws2 => rfl

theorem joinSpace_splitWsAux_le (cs : List Char) : ∀ (inRun : Bool) (acc : List Char),
    (joinSpace (splitWsAux inRun cs acc)).length ≤ cs.length + acc.length := by
  induction cs with
  | nil => intro inRun acc; simp [splitWsAux, joinSpace]
  | cons c rest ih =>
    intro inRun acc
    simp only [splitWsAux]
    split
    · split
      · have h := ih true acc
        simp only [List.length_cons]
        omega
      · have h1 := joinSpace_cons_le acc.reverse (splitWsAux true rest [])
        have h2 := ih true []
        simp only [List.length_reverse, List.length_nil] at h1 h2
        simp only [List.length_cons]
        omega
    · have h := ih false (c :: acc)
      simp only [List.length_cons] at h ⊢
      omega

theorem joinSpace_splitWs_le (cs : List Char) :
    (joinSpace (splitWs cs)).length ≤ cs.length := by
  have h := joinSpace_splitWsAux_le cs false []
  simpa [splitWs] using h

theorem joinSpace_take_le (k : Nat) (ws : List (List Char)) :
    (joinSpace (ws.take k)).length ≤ (joinSpace ws).length := by
  induction ws generalizing k with
  | nil => simp
  | cons w ws ih =>
    cases k with
    | zero => simp [joinSpace]
    | succ k =>
      rw [List.take_succ_cons]
      cases ws with
      | nil => simp
      | cons w2 ws2 =>
        rw [joinSpace_cons_of_ne w (w2 :: ws2) (by simp)]
        cases hk : (w2 :: ws2).take k with
        | nil =>
          simp [joinSpace]
        | cons t ts =>
          have h := ih k
          rw [hk] at h
          rw [joinSpace_cons_of_ne w (t :: ts) (by simp)]
          simp only [List.length_append, List.length_cons] at h ⊢
          omega

theorem joinSpace_drop_one_le (ws : List (List Char)) :
    (joinSpace (ws.drop 1)).length ≤ (joinSpace ws).length := by
  cases ws with
  | nil => simp
  | cons w ws =>
    cases ws with
    | nil => simp [joinSpace]
    | cons w2 ws2 =>
      rw [List.drop_one, List.tail_cons,
        joinSpace_cons_of_ne w (w2 :: ws2) (by simp)]
      simp only [List.length_append, List.length_cons]
      omega

/-- C10: for every content string and search term, the KWIC snippet produced
with the default `maxLength` of 200 has at most 200 characters, in both the
not-found branch (a plain 200-character prefix) and the found branch (a
200-character window whose word-trimming and re-joining never lengthens it),
for any behaviour of the external Markdown stripper. -/
theorem claim10_snippet_length_bound (stripRemark : List Char → List Char)
    (content searchTerm : List Char) :
    (createKWICSnippet stripRemark content searchTerm 200).length ≤ 200 := by
  unfold createKWICSnippet
  cases hidx : indexOfSub searchTerm
      (replaceBackslashN (collapseWs (stripRemark (jsTrim content)))) with
  | none =>
    simp only [hidx]
    exact le_trans (Nat.le_of_eq (List.length_take _ _)) (Nat.min_le_left _ _)
  | some index =>
    simp only [hidx]
    set plainText := replaceBackslashN (collapseWs (stripRemark (jsTrim content)))
      with hpt
    set raw := (plainText.take (index + halfRound 200)).drop (index - halfRound 200)
      with hraw
    have hrawlen : raw.length ≤ 200 := by
      rw [hraw, List.length_drop, List.length_take]
      have h1 : (index + halfRound 200) ⊓ plainText.length ≤ index + halfRound 200 :=
        Nat.min_le_left _ _
      have h2 : halfRound 200 = 100 := rfl
      omega
    have hwords : (joinSpace (splitWs raw)).length ≤ 200 :=
      le_trans (joinSpace_splitWs_le raw) hrawlen
    split
    · exact le_trans (le_trans (joinSpace_take_le _ _) (joinSpace_drop_one_le _)) hwords
    · exact hwords

/-- C6: for the content `"# Title\nThe quick brown fox jumps over the lazy
dog"` and the query `"fox"`, assuming the external `remark`/`strip-markdown`
pipeline removes the heading as configured, the KWIC snippet contains `"fox"`
and contains no `#` heading marker (the snippet computes to
`"quick brown fox jumps over the lazy dog"`). -/
theorem claim6_kwic_example (stripRemark : List Char → List Char)
    (hstrip : stripRemark
        (jsTrim ("# Title\nThe quick brown fox jumps over the lazy dog".toList)) =
      "The quick brown fox jumps over the lazy dog\n".toList) :
    containsSubList "fox".toList
      (createKWICSnippet stripRemark
        "# Title\nThe quick brown fox jumps over the lazy dog".toList
        "fox".toList 200) = true ∧
    '#' ∉ (createKWICSnippet stripRemark
        "# Title\nThe quick brown fox jumps over the lazy dog".toList
        "fox".toList 200) := by
  have h : createKWICSnippet stripRemark
      "# Title\nThe quick brown fox jumps over the lazy dog".toList
      "fox".toList 200 = "quick brown fox jumps over the lazy dog".toList := by
    unfold createKWICSnippet
    rw [hstrip]
    decide
  rw [h]
  exact ⟨by decide, by decide⟩

/-- Witness for C6 at the concrete stripper `stripConst`. -/
theorem claim6_witness :
    (stripConst
        (jsTrim ("# Title\nThe quick brown fox jumps over the lazy dog".toList)) =
      "The quick brown fox jumps over the lazy dog\n".toList) ∧
    (containsSubList "fox".toList
      (createKWICSnippet stripConst
        "# Title\nThe quick brown fox jumps over the lazy dog".toList
        "fox".toList 200) = true ∧
    '#' ∉ (createKWICSnippet stripConst
        "# Title\nThe quick brown fox jumps over the lazy dog".toList
        "fox".toList 200)) :=
  ⟨rfl, claim6_kwic_example stripConst rfl⟩

/-! ## Path filter (C5) -/

theorem shouldInclude_eq_spec (minimatchF : String → String → Bool)
    (path0 : String) (inc exc : List String) (web : Bool) :
    shouldIncludeFileWithPath minimatchF path0 inc exc web =
      shouldIncludeFileWithPathSpec minimatchF path0 inc exc web := by
  simp only [shouldIncludeFileWithPath, shouldIncludeFileWithPathSpec,
    normalizeWebsitePath]
  generalize (if web then
    if !urlHasPath path0 && !jsEndsWith path0 "/" then path0 ++ "/" else path0
    else path0) = p
  cases ha : jsStartsWith p "." <;> cases hb : jsIncludes p "/." <;>
    cases hc : isSupportedFileType p <;>
    cases hd : matchesGlobs minimatchF p inc <;>
    cases he : matchesGlobs minimatchF p exc <;>
    simp [ha, hb, hc, hd, he]

/-- C5: the path filter equals the spec-shaped filter for every path, glob
list, matcher and source kind (reject dotfiles and dot-directories, reject
unsupported file types, normalize website root URLs with a trailing slash
before extension inspection, then accept only when at least one include glob
matches and no exclude glob does, default-deny); in particular it rejects
`.git/config` and `readme.xyz` for every matcher and glob configuration, and,
for a matcher on which `docs/a.md` matches `docs/**`, it accepts `docs/a.md`
under includeGlob `docs/**` with no excludeGlob and rejects it once
excludeGlob `docs/**` is added. -/
theorem claim5_path_filter (mm : String → String → Bool)
    (hmm : mm "docs/a.md" "docs/**" = true) :
    (∀ (mm' : String → String → Bool) (path : String) (inc exc : List String)
        (web : Bool),
      shouldIncludeFileWithPath mm' path inc exc web =
        shouldIncludeFileWithPathSpec mm' path inc exc web) ∧
    (∀ (mm' : String → String → Bool) (inc exc : List String),
      shouldIncludeFileWithPath mm' ".git/config" inc exc false = false) ∧
    (∀ (mm' : String → String → Bool) (exc : List String),
      shouldIncludeFileWithPath mm' "readme.xyz" ["**"] exc false = false) ∧
    shouldIncludeFileWithPath mm "docs/a.md" ["docs/**"] [] false = true ∧
    shouldIncludeFileWithPath mm "docs/a.md" ["docs/**"] ["docs/**"] false = false := by
  have e1 : jsStartsWith "docs/a.md" "." = false := by decide
  have e2 : jsIncludes "docs/a.md" "/." = false := by decide
  have e3 : isSupportedFileType "docs/a.md" = true := by decide
  refine ⟨shouldInclude_eq_spec, ?_, ?_, ?_, ?_⟩
  · intro mm' inc exc
    rw [shouldInclude_eq_spec]
    have e : jsStartsWith ".git/config" "." = true := by decide
    simp [shouldIncludeFileWithPathSpec, normalizeWebsitePath, e]
  · intro mm' exc
    rw [shouldInclude_eq_spec]
    have e : isSupportedFileType "readme.xyz" = false := by decide
    simp [shouldIncludeFileWithPathSpec, normalizeWebsitePath, e]
  · rw [shouldInclude_eq_spec]
    simp [shouldIncludeFileWithPathSpec, normalizeWebsitePath, matchesGlobs,
      hmm, e1, e2, e3]
  · rw [shouldInclude_eq_spec]
    simp [shouldIncludeFileWithPathSpec, normalizeWebsitePath, matchesGlobs,
      hmm, e1, e2, e3]

/-- Witness for C5 at the concrete matcher `mmDocs`. -/
theorem claim5_witness :
    mmDocs "docs/a.md" "docs/**" = true ∧
    shouldIncludeFileWithPath mmDocs "docs/a.md" ["docs/**"] [] false = true ∧
    shouldIncludeFileWithPath mmDocs "docs/a.md" ["docs/**"] ["docs/**"] false = false :=
  ⟨by decide, (claim5_path_filter mmDocs (by decide)).2.2.2.1,
    (claim5_path_filter mmDocs (by decide)).2.2.2.2⟩

/-! ## Bounded pool (C8) -/

/-- C8: in every interleaving the external pool scheduler can produce from
the queue built by `generateEmbeddings` (all item indices queued against a
pool of width `concurrencyLimit`), the number of in-flight submissions never
exceeds the configured width, which is 5. -/
theorem claim8_concurrency_bound (numFiles : Nat) (s : PoolState)
    (hreach : Relation.ReflTransGen PoolStep (poolInit numFiles) s) :
    s.inFlight.length ≤ concurrencyLimit ∧ concurrencyLimit = 5 := by
  refine ⟨?_, rfl⟩
  induction hreach with
  | refl => simp [poolInit]
  | tail hsteps hstep ih =>
    cases hstep with
    | dispatch hroom => simpa using hroom
    | finish hmem => exact le_trans (List.length_erase_le _ _) ih

/-- Witness for C8 at the initial pool of three items. -/
theorem claim8_witness :
    Relation.ReflTransGen PoolStep (poolInit 3) (poolInit 3) ∧
    (poolInit 3).inFlight.length ≤ concurrencyLimit :=
  ⟨Relation.ReflTransGen.refl,
    (claim8_concurrency_bound 3 (poolInit 3) Relation.ReflTransGen.refl).1⟩

/-! ## Per-item pipeline lemmas -/

theorem genFile_of_stopFlag (env : SyncEnv) (i : Nat) (st : SyncState)
    (h : st.stopFlag = true) :
    _generateEmbeddingForFile env i st = (st, false) := by
  simp [_generateEmbeddingForFile, h]

theorem genFile_stopFlag_eq (env : SyncEnv) (i : Nat) (st : SyncState) :
    (_generateEmbeddingForFile env i st).1.stopFlag = st.stopFlag := by
  simp only [_generateEmbeddingForFile]
  split
  · rfl
  · split
    · rfl
    · split
      · rfl
      · split
        · rfl
        · split <;> rfl

theorem genFile_submissions_spec (env : SyncEnv) (i : Nat) (st : SyncState) :
    (_generateEmbeddingForFile env i st).1.submissions = st.submissions ∨
    (_generateEmbeddingForFile env i st).1.submissions =
      st.submissions ++ [(env.sourceId, i)] := by
  simp only [_generateEmbeddingForFile]
  split
  · exact Or.inl rfl
  · split
    · exact Or.inl rfl
    · split
      · exact Or.inl rfl
      · split
        · exact Or.inl rfl
        · split <;> exact Or.inr rfl

theorem genFile_errorItems_spec (env : SyncEnv) (i : Nat) (st : SyncState) :
    (_generateEmbeddingForFile env i st).1.errorItems = st.errorItems ∨
    (_generateEmbeddingForFile env i st).1.errorItems =
      st.errorItems ++ [(env.sourceId, i)] := by
  simp only [_generateEmbeddingForFile]
  split
  · exact Or.inl rfl
  · split
    · exact Or.inl rfl
    · split
      · exact Or.inl rfl
      · split
        · exact Or.inl rfl
        · split
          · exact Or.inl rfl
          · exact Or.inl rfl
          · exact Or.inr rfl

theorem genFile_checksum_skip (env : SyncEnv) (i : Nat) (st : SyncState)
    (nm c : String)
    (hcontent : env.getFileNameContent i = some (nm, c))
    (hck : (env.checksums.find? (fun e => e.1 == env.getFilePath i)).map
        (fun e => e.2) = some (env.createChecksum c)) :
    (_generateEmbeddingForFile env i st).1.submissions = st.submissions ∧
    (_generateEmbeddingForFile env i st).1.errorItems = st.errorItems ∧
    (_generateEmbeddingForFile env i st).1.callbacks = st.callbacks := by
  simp only [_generateEmbeddingForFile]
  split
  · exact ⟨rfl, rfl, rfl⟩
  · split
    · exact ⟨rfl, rfl, rfl⟩
    · rw [hcontent]
      simp [hck]

theorem genFile_submit (env : SyncEnv) (i : Nat) (st : SyncState)
    (nm c : String)
    (h0 : st.stopFlag = false)
    (h1 : shouldIncludeFileWithPath env.minimatchF (env.getFilePath i)
      env.includeGlobs env.excludeGlobs
      (env.sourceType == SourceType.website) = true)
    (hcontent : env.getFileNameContent i = some (nm, c))
    (hck : (env.checksums.find? (fun e => e.1 == env.getFilePath i)).map
        (fun e => e.2) ≠ some (env.createChecksum c)) :
    (_generateEmbeddingForFile env i st).1.callbacks =
      st.callbacks ++ [(env.sourceId, i)] ∧
    (_generateEmbeddingForFile env i st).1.submissions =
      st.submissions ++ [(env.sourceId, i)] ∧
    ((_generateEmbeddingForFile env i st).2 = true ↔
      env.processResult i = ProcResult.quotaExceeded) ∧
    (env.processResult i = ProcResult.quotaExceeded →
      (_generateEmbeddingForFile env i st).1.trainingState = TrainingState.idle) := by
  simp only [_generateEmbeddingForFile, h0, h1, Bool.not_true, if_false]
  rw [hcontent]
  simp only [if_neg hck]
  cases hp : env.processResult i with
  | success => simp [hp]
  | quotaExceeded => simp [hp]
  | otherError msg => simp [hp]

/-! ## Run-level pipeline lemmas -/

theorem runItems_pres (env : SyncEnv) (P : SyncState → Prop)
    (hstep : ∀ (j : Nat) (s : SyncState), P s →
      P (_generateEmbeddingForFile env j s).1) :
    ∀ (is : List Nat) (st : SyncState), P st → P (runItems env is st).1 := by
  intro is
  induction is with
  | nil => intro st h; exact h
  | cons j rest ih =>
    intro st h
    simp only [runItems]
    exact ih _ (hstep j st h)

theorem runItems_stopped (env : SyncEnv) (is : List Nat) (st : SyncState)
    (h : st.stopFlag = true) : runItems env is st = (st, false) := by
  induction is with
  | nil => rfl
  | cons j rest ih =>
    simp only [runItems, genFile_of_stopFlag env j st h]
    simp [ih]

theorem runItems_submissions_mono (env : SyncEnv) (is : List Nat)
    (st : SyncState) (x : String × Nat) (h : x ∈ st.submissions) :
    x ∈ (runItems env is st).1.submissions := by
  refine runItems_pres env (fun s => x ∈ s.submissions) ?_ is st h
  intro j s hs
  rcases genFile_submissions_spec env j s with hcase | hcase
  · rw [hcase]; exact hs
  · rw [hcase]; exact List.mem_append_left _ hs

theorem runItems_submits (env : SyncEnv) (j : Nat) (nm c : String)
    (h1 : shouldIncludeFileWithPath env.minimatchF (env.getFilePath j)
      env.includeGlobs env.excludeGlobs
      (env.sourceType == SourceType.website) = true)
    (hcontent : env.getFileNameContent j = some (nm, c))
    (hck : (env.checksums.find? (fun e => e.1 == env.getFilePath j)).map
        (fun e => e.2) ≠ some (env.createChecksum c)) :
    ∀ (is : List Nat) (st : SyncState), j ∈ is → st.stopFlag = false →
      (env.sourceId, j) ∈ (runItems env is st).1.submissions := by
  intro is
  induction is with
  | nil => intro st hmem; exact absurd hmem (List.not_mem_nil j)
  | cons k rest ih =>
    intro st hmem h0
    rcases List.mem_cons.mp hmem with hjk | hjrest
    · subst hjk
      simp only [runItems]
      refine runItems_submissions_mono env rest _ _ ?_
      rw [(genFile_submit env j st nm c h0 h1 hcontent hck).2.1]
      exact List.mem_append_right _ (List.mem_singleton.mpr rfl)
    · simp only [runItems]
      refine ih _ hjrest ?_
      rw [genFile_stopFlag_eq]
      exact h0

theorem generateEmbeddings_submissions_mono (env : SyncEnv) (st : SyncState)
    (x : String × Nat) (h : x ∈ st.submissions) :
    x ∈ (generateEmbeddings env st).submissions := by
  simp only [generateEmbeddings]
  exact runItems_submissions_mono env _ _ x h

theorem generateEmbeddings_submits (env : SyncEnv) (st : SyncState) (j : Nat)
    (nm c : String)
    (hj : j < env.numFiles)
    (h1 : shouldIncludeFileWithPath env.minimatchF (env.getFilePath j)
      env.includeGlobs env.excludeGlobs
      (env.sourceType == SourceType.website) = true)
    (hcontent : env.getFileNameContent j = some (nm, c))
    (hck : (env.checksums.find? (fun e => e.1 == env.getFilePath j)).map
        (fun e => e.2) ≠ some (env.createChecksum c)) :
    (env.sourceId, j) ∈ (generateEmbeddings env st).submissions := by
  simp only [generateEmbeddings]
  exact runItems_submits env j nm c h1 hcontent hck _ _
    (List.mem_range.mpr hj) rfl

theorem foldl_generateEmbeddings_mono (envs : List SyncEnv) (st : SyncState)
    (x : String × Nat) (h : x ∈ st.submissions) :
    x ∈ (envs.foldl (fun s env => generateEmbeddings env s) st).submissions := by
  induction envs generalizing st with
  | nil => exact h
  | cons e rest ih =>
    simp only [List.foldl_cons]
    exact ih _ (generateEmbeddings_submissions_mono e st x h)

theorem trainAllSources_submits (pre post : List SyncEnv) (e : SyncEnv)
    (st : SyncState) (j : Nat) (nm c : String)
    (hj : j < e.numFiles)
    (h1 : shouldIncludeFileWithPath e.minimatchF (e.getFilePath j)
      e.includeGlobs e.excludeGlobs
      (e.sourceType == SourceType.website) = true)
    (hcontent : e.getFileNameContent j = some (nm, c))
    (hck : (e.checksums.find? (fun x => x.1 == e.getFilePath j)).map
        (fun x => x.2) ≠ some (e.createChecksum c)) :
    (e.sourceId, j) ∈ (trainAllSources (pre ++ e :: post) st).submissions := by
  simp only [trainAllSources, List.foldl_append, List.foldl_cons]
  exact foldl_generateEmbeddings_mono post _ _
    (generateEmbeddings_submits e _ j nm c hj h1 hcontent hck)

/-! ## Incremental-sync contract (C2) -/

/-- C2: an item whose current checksum (computed by the external `crypto`
SHA-256/base64 `createChecksum`, passed as a parameter) equals the stored
checksum row for its path is never submitted to the embedding processor and
records no error during the whole sync run, whatever the other items do. -/
theorem claim2_checksum_skip (env : SyncEnv) (st : SyncState) (i : Nat)
    (nm c : String)
    (hcontent : env.getFileNameContent i = some (nm, c))
    (hck : (env.checksums.find? (fun e => e.1 == env.getFilePath i)).map
        (fun e => e.2) = some (env.createChecksum c))
    (hs : (env.sourceId, i) ∉ st.submissions)
    (he : (env.sourceId, i) ∉ st.errorItems) :
    (env.sourceId, i) ∉ (generateEmbeddings env st).submissions ∧
    (env.sourceId, i) ∉ (generateEmbeddings env st).errorItems := by
  simp only [generateEmbeddings]
  refine runItems_pres env
    (fun s => (env.sourceId, i) ∉ s.submissions ∧ (env.sourceId, i) ∉ s.errorItems)
    ?_ _ _ ⟨hs, he⟩
  intro j s hsub
  by_cases hij : j = i
  · subst hij
    have hskip := genFile_checksum_skip env j s nm c hcontent hck
    exact ⟨hskip.1 ▸ hsub.1, hskip.2.1 ▸ hsub.2⟩
  · constructor
    · rcases genFile_submissions_spec env j s with hcase | hcase
      · rw [hcase]; exact hsub.1
      · rw [hcase]
        intro hmem
        rcases List.mem_append.mp hmem with hmem | hmem
        · exact hsub.1 hmem
        · exact hij (congrArg Prod.snd (List.mem_singleton.mp hmem)).symm
    · rcases genFile_errorItems_spec env j s with hcase | hcase
      · rw [hcase]; exact hsub.2
      · rw [hcase]
        intro hmem
        rcases List.mem_append.mp hmem with hmem | hmem
        · exact hsub.2 hmem
        · exact hij (congrArg Prod.snd (List.mem_singleton.mp hmem)).symm

/-- Witness for C2 at `envUnchanged`: the single unchanged file is neither
submitted nor the subject of an error. -/
theorem claim2_witness :
    (envUnchanged.sourceId, 0) ∉
      (generateEmbeddings envUnchanged initialSyncState).submissions ∧
    (envUnchanged.sourceId, 0) ∉
      (generateEmbeddings envUnchanged initialSyncState).errorItems :=
  claim2_checksum_skip envUnchanged initialSyncState 0 "a.md" "contentA"
    rfl (by decide) (by decide) (by decide)

/-! ## Cancellation (C4) -/

/-- C4: once `stopGeneratingEmbeddings` has set the cooperative stop flag,
running any remaining (not yet dispatched) items leaves the state exactly
unchanged and throws nothing — no training-state update, no content fetch,
no submission, no callback, no error; while an item dispatched with the flag
still unset that reaches the submission step runs to completion and invokes
the per-file callback exactly once, whatever the processor answers. -/
theorem claim4_cancellation (env : SyncEnv) (st : SyncState) :
    (stopGeneratingEmbeddings st).stopFlag = true ∧
    (∀ is : List Nat,
      runItems env is (stopGeneratingEmbeddings st) =
        (stopGeneratingEmbeddings st, false)) ∧
    (∀ (st' : SyncState) (i : Nat) (nm c : String), st'.stopFlag = false →
      shouldIncludeFileWithPath env.minimatchF (env.getFilePath i)
        env.includeGlobs env.excludeGlobs
        (env.sourceType == SourceType.website) = true →
      env.getFileNameContent i = some (nm, c) →
      (env.checksums.find? (fun e => e.1 == env.getFilePath i)).map
        (fun e => e.2) ≠ some (env.createChecksum c) →
      (_generateEmbeddingForFile env i st').1.callbacks =
        st'.callbacks ++ [(env.sourceId, i)]) := by
  refine ⟨rfl, ?_, ?_⟩
  · intro is
    exact runItems_stopped env is _ rfl
  · intro st' i nm c h0 h1 hcontent hck
    exact (genFile_submit env i st' nm c h0 h1 hcontent hck).1

/-- Witness for C4 at `envFresh`: after cancellation the one remaining item
leaves the state untouched, while the same item dispatched before
cancellation still fires its callback. -/
theorem claim4_witness :
    runItems envFresh [0] (stopGeneratingEmbeddings initialSyncState) =
      (stopGeneratingEmbeddings initialSyncState, false) ∧
    (_generateEmbeddingForFile envFresh 0 initialSyncState).1.callbacks =
      initialSyncState.callbacks ++ [(envFresh.sourceId, 0)] :=
  ⟨(claim4_cancellation envFresh initialSyncState).2.1 [0],
    (claim4_cancellation envFresh initialSyncState).2.2 initialSyncState 0
      "a.md" "contentA" rfl (by decide) rfl (by decide)⟩

/-! ## Per-file callback (C7) -/

/-- C7 is refuted as stated: item 0 of `envNoContent` passes filtering and
the checksum lookup and reaches content resolution (the fetch is recorded),
but the adapter resolves no content (`fetchPageContent` returned `null`), so
the per-file-processed callback never fires for it even though it was neither
skipped by path filtering nor by checksum equality. -/
theorem claim7_counterexample :
    (generateEmbeddings envNoContent initialSyncState).fetches = [("s7", 0)] ∧
    (generateEmbeddings envNoContent initialSyncState).callbacks = [] := by
  constructor <;> rfl

/-- C7 (amended): an item that reaches content resolution, obtains content,
and has a checksum differing from the stored one invokes the per-file
callback exactly once, whether the submission succeeds or fails with any
error kind; the callback does not fire for items skipped by path filtering,
for items whose content resolution yields nothing, or for items skipped by
checksum equality. -/
theorem claim7_callback_per_item (env : SyncEnv) (i : Nat) :
    (∀ (st : SyncState) (nm c : String), st.stopFlag = false →
      shouldIncludeFileWithPath env.minimatchF (env.getFilePath i)
        env.includeGlobs env.excludeGlobs
        (env.sourceType == SourceType.website) = true →
      env.getFileNameContent i = some (nm, c) →
      (env.checksums.find? (fun e => e.1 == env.getFilePath i)).map
        (fun e => e.2) ≠ some (env.createChecksum c) →
      (_generateEmbeddingForFile env i st).1.callbacks =
        st.callbacks ++ [(env.sourceId, i)]) ∧
    (∀ st : SyncState,
      shouldIncludeFileWithPath env.minimatchF (env.getFilePath i)
        env.includeGlobs env.excludeGlobs
        (env.sourceType == SourceType.website) = false →
      (_generateEmbeddingForFile env i st).1.callbacks = st.callbacks) ∧
    (∀ st : SyncState, env.getFileNameContent i = none →
      (_generateEmbeddingForFile env i st).1.callbacks = st.callbacks) ∧
    (∀ (st : SyncState) (nm c : String),
      env.getFileNameContent i = some (nm, c) →
      (env.checksums.find? (fun e => e.1 == env.getFilePath i)).map
        (fun e => e.2) = some (env.createChecksum c) →
      (_generateEmbeddingForFile env i st).1.callbacks = st.callbacks) := by
  refine ⟨?_, ?_, ?_, ?_⟩
  · intro st nm c h0 h1 hcontent hck
    exact (genFile_submit env i st nm c h0 h1 hcontent hck).1
  · intro st hfilter
    simp only [_generateEmbeddingForFile]
    split
    · rfl
    · rw [hfilter]
      simp
  · intro st hnone
    simp only [_generateEmbeddingForFile]
    split
    · rfl
    · split
      · rfl
      · rw [hnone]
  · intro st nm c hcontent hck
    exact (genFile_checksum_skip env i st nm c hcontent hck).2.2

/-- Witness for C7 (amended) at `envFresh` and `envUnchanged`. -/
theorem claim7_witness :
    (_generateEmbeddingForFile envFresh 0 initialSyncState).1.callbacks =
      initialSyncState.callbacks ++ [(envFresh.sourceId, 0)] ∧
    (_generateEmbeddingForFile envUnchanged 0 initialSyncState).1.callbacks =
      initialSyncState.callbacks :=
  ⟨(claim7_callback_per_item envFresh 0).1 initialSyncState "a.md" "contentA"
      rfl (by decide) rfl (by decide),
    (claim7_callback_per_item envUnchanged 0).2.2.2 initialSyncState
      "a.md" "contentA" rfl (by decide)⟩

/-! ## Quota handling (C1) -/

/-- C1 is refuted as stated: in the two-source run, the processor answers
item `("s1", 0)` with the quota failure and the batch does reject (the thrown
flag is `true`), yet the submissions of the whole pass are
`[("s1", 0), ("s1", 1), ("s2", 0)]` — the queued item 1 of the same source
still starts a new submission (the stop flag is never set by the quota path
and `p-limit` does not clear its queue), and the orchestrator still processes
source `s2` because `generateEmbeddings` catches the rejection instead of
propagating it. -/
theorem claim1_counterexample :
    envQuotaA.processResult 0 = ProcResult.quotaExceeded ∧
    (runItems envQuotaA (List.range 2)
      { initialSyncState with errors := [], stopFlag := false }).2 = true ∧
    (trainAllSources [envQuotaA, envQuotaB] initialSyncState).submissions =
      [("s1", 0), ("s1", 1), ("s2", 0)] := by
  refine ⟨rfl, ?_, ?_⟩ <;> rfl

/-- C1 (amended): on a quota-exceeded failure the per-item handler invokes
the callback, transitions the training state to `idle`, and rethrows; but
`generateEmbeddings` swallows the rejection (its `catch` only logs), so every
sync still ends in `idle` and every submittable item of every source — in the
same pass and in later sources — still starts its submission regardless of
any earlier quota failure; the orchestrator is never halted. -/
theorem claim1_quota_behavior :
    (∀ (env : SyncEnv) (i : Nat) (st : SyncState) (nm c : String),
      st.stopFlag = false →
      shouldIncludeFileWithPath env.minimatchF (env.getFilePath i)
        env.includeGlobs env.excludeGlobs
        (env.sourceType == SourceType.website) = true →
      env.getFileNameContent i = some (nm, c) →
      (env.checksums.find? (fun e => e.1 == env.getFilePath i)).map
        (fun e => e.2) ≠ some (env.createChecksum c) →
      env.processResult i = ProcResult.quotaExceeded →
      ((_generateEmbeddingForFile env i st).2 = true ∧
       (_generateEmbeddingForFile env i st).1.trainingState = TrainingState.idle ∧
       (_generateEmbeddingForFile env i st).1.callbacks =
         st.callbacks ++ [(env.sourceId, i)])) ∧
    (∀ (env : SyncEnv) (st : SyncState),
      (generateEmbeddings env st).trainingState = TrainingState.idle) ∧
    (∀ (pre post : List SyncEnv) (e : SyncEnv) (st : SyncState) (j : Nat)
        (nm c : String),
      j < e.numFiles →
      shouldIncludeFileWithPath e.minimatchF (e.getFilePath j)
        e.includeGlobs e.excludeGlobs
        (e.sourceType == SourceType.website) = true →
      e.getFileNameContent j = some (nm, c) →
      (e.checksums.find? (fun x => x.1 == e.getFilePath j)).map
        (fun x => x.2) ≠ some (e.createChecksum c) →
      (e.sourceId, j) ∈ (trainAllSources (pre ++ e :: post) st).submissions) := by
  refine ⟨?_, ?_, ?_⟩
  · intro env i st nm c h0 h1 hcontent hck hp
    have h := genFile_submit env i st nm c h0 h1 hcontent hck
    exact ⟨h.2.2.1.mpr hp, h.2.2.2 hp, h.1⟩
  · intro env st
    rfl
  · intro pre post e st j nm c hj h1 hcontent hck
    exact trainAllSources_submits pre post e st j nm c hj h1 hcontent hck

/-- Witness for C1 (amended): the quota item of `envQuotaA` rethrows with the
state at `idle` and its callback fired; item 1 of the same source and item 0
of the subsequent source `envQuotaB` are both still submitted. -/
theorem claim1_witness :
    ((_generateEmbeddingForFile envQuotaA 0
        { initialSyncState with errors := [], stopFlag := false }).2 = true ∧
      (_generateEmbeddingForFile envQuotaA 0
        { initialSyncState with errors := [], stopFlag := false
          }).1.trainingState = TrainingState.idle ∧
      (_generateEmbeddingForFile envQuotaA 0
        { initialSyncState with errors := [], stopFlag := false }).1.callbacks =
        ({ initialSyncState with errors := [], stopFlag := false }).callbacks ++
          [(envQuotaA.sourceId, 0)]) ∧
    ("s1", 1) ∈ (trainAllSources [envQuotaA] initialSyncState).submissions ∧
    ("s2", 0) ∈
      (trainAllSources [envQuotaA, envQuotaB] initialSyncState).submissions :=
  ⟨claim1_quota_behavior.1 envQuotaA 0 _ "a.md" "contentA" rfl (by decide)
      (by decide) (by decide) (by decide),
    claim1_quota_behavior.2.2 [] [] envQuotaA initialSyncState 1
      "b.md" "contentB" (by decide) (by decide) (by decide) (by decide),
    claim1_quota_behavior.2.2 [envQuotaA] [] envQuotaB initialSyncState 0
      "c.md" "contentC" (by decide) (by decide) (by decide) (by decide)⟩

/-! ## Sitemap mode (C9) -/

/-- C9: in sitemap mode the dispatched candidate set is exactly the first 10
sitemap URLs (`slice(0, 10)`) as one batch — the link-discovery loop is never
entered — so at most 10 pages are ingested, and a 15-URL sitemap yields
exactly 10. -/
theorem claim9_sitemap_cap (sitemapUrls : List String) (env : CrawlEnv)
    (fuel : Nat) :
    websiteDispatchedUrls true sitemapUrls env fuel = sitemapUrls.take 10 ∧
    (websiteDispatchedUrls true sitemapUrls env fuel).length ≤ 10 ∧
    (sitemapUrls.length = 15 →
      (websiteDispatchedUrls true sitemapUrls env fuel).length = 10) := by
  refine ⟨rfl, ?_, ?_⟩
  · simp only [websiteDispatchedUrls, sitemapCandidates, if_true,
      List.length_take]
    exact Nat.min_le_left _ _
  · intro h15
    simp [websiteDispatchedUrls, sitemapCandidates, List.length_take, h15]

/-- Witness for C9 at a concrete 15-URL sitemap. -/
theorem claim9_witness :
    (List.replicate 15 "u").length = 15 ∧
    (websiteDispatchedUrls true (List.replicate 15 "u") envCycle 0).length = 10 :=
  ⟨by decide,
    (claim9_sitemap_cap (List.replicate 15 "u") envCycle 0).2.2 (by decide)⟩

/-! ## Crawler lemmas (C3) -/

theorem mem_uniqAux (x : String) (xs : List String) : ∀ seen : List String,
    x ∈ uniqAux seen xs ↔ x ∈ xs ∧ x ∉ seen := by
  induction xs with
  | nil => intro seen; simp [uniqAux]
  | cons y ys ih =>
    intro seen
    simp only [uniqAux]
    split
    · rename_i hy
      rw [ih seen]
      constructor
      · rintro ⟨hx, hs⟩
        exact ⟨List.mem_cons_of_mem _ hx, hs⟩
      · rintro ⟨hx, hs⟩
        rcases List.mem_cons.mp hx with rfl | hx
        · exact absurd hy hs
        · exact ⟨hx, hs⟩
    · rename_i hy
      simp only [List.mem_cons, ih (y :: seen)]
      constructor
      · rintro (rfl | ⟨hx, hs⟩)
        · exact ⟨Or.inl rfl, hy⟩
        · exact ⟨Or.inr hx, fun hseen => hs (Or.inr hseen)⟩
      · rintro ⟨hxy, hs⟩
        by_cases heq : x = y
        · exact Or.inl heq
        · rcases hxy with rfl | hx
          · exact Or.inl rfl
          · refine Or.inr ⟨hx, fun hmem => ?_⟩
            rcases hmem with rfl | hmem
            · exact heq rfl
            · exact hs hmem

theorem mem_uniq (x : String) (xs : List String) : x ∈ uniq xs ↔ x ∈ xs := by
  rw [uniq, mem_uniqAux]
  simp

theorem nodup_uniqAux (xs : List String) : ∀ seen : List String,
    (uniqAux seen xs).Nodup := by
  induction xs with
  | nil => intro seen; simp [uniqAux]
  | cons y ys ih =>
    intro seen
    simp only [uniqAux]
    split
    · exact ih seen
    · refine List.nodup_cons.mpr ⟨?_, ih (y :: seen)⟩
      intro hmem
      exact ((mem_uniqAux y ys (y :: seen)).mp hmem).2 (List.mem_cons_self y seen)

theorem nodup_uniq (xs : List String) : (uniq xs).Nodup := nodup_uniqAux xs []

theorem mem_next_frontier (P D : List String) (l : String) :
    l ∈ D.filter (fun link => !P.contains link) ↔ l ∈ D ∧ l ∉ P := by
  simp [List.mem_filter, List.contains, List.elem_iff]

theorem mem_discovered (env : CrawlEnv) (s : CrawlState) (l : String) :
    l ∈ ((uniq (s.linksToProcess.flatMap env.discoverHrefs)).filter
        (fun href => isHrefFromBaseUrl env.baseUrl href)).map
      (fun href => completeHrefWithBaseUrl env.baseUrl href) ↔
    ∃ u ∈ s.linksToProcess, ∃ href ∈ env.discoverHrefs u,
      isHrefFromBaseUrl env.baseUrl href = true ∧
      l = completeHrefWithBaseUrl env.baseUrl href := by
  simp only [List.mem_map, List.mem_filter, mem_uniq, List.mem_flatMap]
  constructor
  · rintro ⟨href, ⟨⟨u, hu, hhref⟩, hfil⟩, rfl⟩
    exact ⟨u, hu, href, hhref, hfil, rfl⟩
  · rintro ⟨u, hu, href, hhref, hfil, rfl⟩
    exact ⟨href, ⟨⟨u, hu, hhref⟩, hfil⟩, rfl⟩

theorem crawlInv_init (env : CrawlEnv) (U : List String)
    (hU : ClosedUniverse env U) : CrawlInv env U (crawlInit env.startUrl) := by
  refine ⟨by simp [crawlInit], ?_, by simp [crawlInit], by simp [crawlInit], by simp [crawlInit]⟩
  intro l hl
  simp only [crawlInit] at hl
  rcases List.mem_singleton.mp hl with rfl
  exact hU.1

theorem crawlInv_round (env : CrawlEnv) (U : List String) (s : CrawlState)
    (hU : ClosedUniverse env U) (hinv : CrawlInv env U s) :
    CrawlInv env U (crawlRound env s) := by
  obtain ⟨hp, hf, hdisj, hstart, hclosed⟩ := hinv
  refine ⟨?_, ?_, ?_, ?_, ?_⟩
  · intro x hx
    rcases List.mem_append.mp hx with hx | hx
    · exact hp hx
    · exact hf hx
  · intro x hx
    rw [crawlRound] at hx
    simp only at hx
    obtain ⟨hxD, _⟩ := (mem_next_frontier _ _ x).mp hx
    obtain ⟨u, hu, href, hhref, hfil, rfl⟩ := (mem_discovered env s x).mp hxD
    exact hU.2 u (hf hu) href hhref hfil
  · intro l hl
    rw [crawlRound] at hl
    simp only at hl
    exact ((mem_next_frontier _ _ l).mp hl).2
  · rw [crawlRound]
    simp only []
    exact List.mem_append_left _ hstart
  · intro u hu href hhref hfil
    rw [crawlRound] at hu ⊢
    simp only at hu ⊢
    rcases List.mem_append.mp hu with hu | hu
    · exact List.mem_append_left _ (hclosed u hu href hhref hfil)
    · by_cases hmem :
        completeHrefWithBaseUrl env.baseUrl href ∈ s.processedLinks ++ s.linksToProcess
      · exact List.mem_append_left _ hmem
      · refine List.mem_append_right _ ?_
        refine (mem_next_frontier _ _ _).mpr ⟨?_, hmem⟩
        exact (mem_discovered env s _).mpr ⟨u, hu, href, hhref, hfil, rfl⟩

theorem crawl_inv (env : CrawlEnv) (U : List String) (hU : ClosedUniverse env U) :
    ∀ (fuel : Nat) (s : CrawlState), CrawlInv env U s →
      CrawlInv env U (crawl env fuel s) := by
  intro fuel
  induction fuel with
  | zero => intro s hinv; exact hinv
  | succ n ih =>
    intro s hinv
    rw [crawl]
    split
    · exact hinv
    · exact ih _ (crawlInv_round env U s hU hinv)

theorem crawlNodup_round (env : CrawlEnv) (U : List String) (s : CrawlState)
    (hid : IdentityCompletion env U) (hinv : CrawlInv env U s)
    (hnd : (s.processedLinks ++ s.linksToProcess).Nodup) :
    ((crawlRound env s).processedLinks ++ (crawlRound env s).linksToProcess).Nodup := by
  obtain ⟨hp, hf, hdisj, hstart, hclosed⟩ := hinv
  rw [crawlRound]
  simp only []
  have hmapid :
      ((uniq (s.linksToProcess.flatMap env.discoverHrefs)).filter
          (fun href => isHrefFromBaseUrl env.baseUrl href)).map
        (fun href => completeHrefWithBaseUrl env.baseUrl href) =
      (uniq (s.linksToProcess.flatMap env.discoverHrefs)).filter
        (fun href => isHrefFromBaseUrl env.baseUrl href) := by
    have hcongr : ∀ href ∈ (uniq (s.linksToProcess.flatMap env.discoverHrefs)).filter
        (fun href => isHrefFromBaseUrl env.baseUrl href),
        completeHrefWithBaseUrl env.baseUrl href = id href := by
      intro href hhref
      obtain ⟨hmem, _⟩ := List.mem_filter.mp hhref
      obtain ⟨u, hu, hhref'⟩ := List.mem_flatMap.mp ((mem_uniq _ _).mp hmem)
      exact hid u (hf hu) href hhref'
    rw [List.map_congr_left hcongr, List.map_id]
  refine List.Nodup.append hnd ?_ ?_
  · exact List.Nodup.filter _ (by rw [hmapid]; exact List.Nodup.filter _ (nodup_uniq _))
  · rw [List.disjoint_left]
    intro a ha hafr
    exact ((mem_next_frontier _ _ a).mp hafr).2 ha

theorem crawl_nodup (env : CrawlEnv) (U : List String)
    (hU : ClosedUniverse env U) (hid : IdentityCompletion env U) :
    ∀ (fuel : Nat) (s : CrawlState), CrawlInv env U s →
      (s.processedLinks ++ s.linksToProcess).Nodup →
      ((crawl env fuel s).processedLinks ++ (crawl env fuel s).linksToProcess).Nodup := by
  intro fuel
  induction fuel with
  | zero => intro s hinv hnd; exact hnd
  | succ n ih =>
    intro s hinv hnd
    rw [crawl]
    split
    · exact hnd
    · exact ih _ (crawlInv_round env U s hU hinv)
        (crawlNodup_round env U s hid hinv hnd)

theorem crawl_frontier_empty (env : CrawlEnv) (U : List String)
    (hU : ClosedUniverse env U) :
    ∀ (fuel : Nat) (s : CrawlState), CrawlInv env U s →
      U.toFinset.card ≤ fuel + s.processedLinks.toFinset.card →
      (crawl env fuel s).linksToProcess = [] := by
  intro fuel
  induction fuel with
  | zero =>
    intro s hinv hcard
    obtain ⟨hp, hf, hdisj, hstart, hclosed⟩ := hinv
    have hsub : s.processedLinks.toFinset ⊆ U.toFinset := by
      intro a ha
      exact List.mem_toFinset.mpr (hp (List.mem_toFinset.mp ha))
    have heq : s.processedLinks.toFinset = U.toFinset :=
      Finset.eq_of_subset_of_card_le hsub (by omega)
    cases hfr : s.linksToProcess with
    | nil => exact hfr
    | cons x xs =>
      exfalso
      have hxU : x ∈ U.toFinset :=
        List.mem_toFinset.mpr (hf (hfr ▸ List.mem_cons_self x xs))
      rw [← heq] at hxU
      exact hdisj x (hfr ▸ List.mem_cons_self x xs) (List.mem_toFinset.mp hxU)
  | succ n ih =>
    intro s hinv hcard
    rw [crawl]
    split
    · rename_i hemp
      exact List.isEmpty_iff.mp hemp
    · rename_i hemp
      have hne : s.linksToProcess ≠ [] := fun h => hemp (by simp [h])
      obtain ⟨hp, hf, hdisj, hstart, hclosed⟩ := hinv
      have hgrow : s.processedLinks.toFinset.card + 1 ≤
          (crawlRound env s).processedLinks.toFinset.card := by
        cases hfr : s.linksToProcess with
        | nil => exact absurd hfr hne
        | cons x xs =>
          have hxnp : x ∉ s.processedLinks.toFinset := by
            intro hmem
            exact hdisj x (hfr ▸ List.mem_cons_self x xs)
              (List.mem_toFinset.mp hmem)
          have hsub : insert x s.processedLinks.toFinset ⊆
              (crawlRound env s).processedLinks.toFinset := by
            intro a ha
            rcases Finset.mem_insert.mp ha with rfl | ha
            · refine List.mem_toFinset.mpr ?_
              rw [crawlRound]
              exact List.mem_append_right _ (hfr ▸ List.mem_cons_self a xs)
            · refine List.mem_toFinset.mpr ?_
              rw [crawlRound]
              exact List.mem_append_left _ (List.mem_toFinset.mp ha)
          have := Finset.card_le_card hsub
          rwa [Finset.card_insert_of_not_mem hxnp] at this
      refine ih (crawlRound env s)
        (crawlInv_round env U s hU ⟨hp, hf, hdisj, hstart, hclosed⟩) ?_
      omega

theorem reachable_mem_processed (env : CrawlEnv) (U : List String)
    (s : CrawlState) (hinv : CrawlInv env U s)
    (hempty : s.linksToProcess = []) :
    ∀ l, Reachable env l → l ∈ s.processedLinks := by
  intro l hreach
  induction hreach with
  | start =>
    have hst := hinv.2.2.2.1
    rwa [hempty, List.append_nil] at hst
  | @step u href _ hhref hfil ih =>
    have hcl := hinv.2.2.2.2 u ih href hhref hfil
    rwa [hempty, List.append_nil] at hcl

/-- C3 is refuted as stated: for the one-page site whose root links to the
same target twice — once as `/a` and once as `https://example.com/a` — the
crawl terminates with the frontier empty, but the target page appears twice
in the processed (visited) list: the per-round `uniq` deduplicates raw hrefs
before completion, so two distinct hrefs resolving to the same URL are both
enqueued in the same round and the page is visited twice, not exactly once. -/
theorem claim3_counterexample :
    (crawl envDupHref 3 (crawlInit envDupHref.startUrl)).linksToProcess = [] ∧
    (crawl envDupHref 3 (crawlInit envDupHref.startUrl)).processedLinks =
      ["https://example.com", "https://example.com/a", "https://example.com/a"] ∧
    List.count "https://example.com/a"
      (crawl envDupHref 3 (crawlInit envDupHref.startUrl)).processedLinks = 2 := by
  refine ⟨?_, ?_, ?_⟩ <;> rfl

/-- C3 (amended): over every finite link graph (a universe closed under the
crawl's discover–filter–complete step), the loop reaches an empty frontier
within `|U|` rounds (termination); at every round the frontier never contains
a link already in the processed set; on termination every page reachable by
the crawl's own discovery relation — including through cycles — has been
visited; and provided no two distinct hrefs of the graph resolve to the same
completed URL (here: hrefs already in completed form), the processed list has
no duplicates, i.e. each visited page is visited exactly once. -/
theorem claim3_crawl_loop (env : CrawlEnv) (U : List String)
    (hU : ClosedUniverse env U) :
    (crawl env U.toFinset.card (crawlInit env.startUrl)).linksToProcess = [] ∧
    (∀ (fuel : Nat) (l : String),
      l ∈ (crawl env fuel (crawlInit env.startUrl)).linksToProcess →
      l ∉ (crawl env fuel (crawlInit env.startUrl)).processedLinks) ∧
    (∀ l, Reachable env l →
      l ∈ (crawl env U.toFinset.card (crawlInit env.startUrl)).processedLinks) ∧
    (IdentityCompletion env U →
      (crawl env U.toFinset.card (crawlInit env.startUrl)).processedLinks.Nodup) := by
  have hinit := crawlInv_init env U hU
  have hterm : (crawl env U.toFinset.card (crawlInit env.startUrl)).linksToProcess = [] := by
    refine crawl_frontier_empty env U hU _ _ hinit ?_
    simp [crawlInit]
  refine ⟨hterm, ?_, ?_, ?_⟩
  · intro fuel l hl
    exact (crawl_inv env U hU fuel _ hinit).2.2.1 l hl
  · exact reachable_mem_processed env U _
      (crawl_inv env U hU _ _ hinit) hterm
  · intro hid
    have hnd := crawl_nodup env U hU hid U.toFinset.card _ hinit
      (by simp [crawlInit])
    exact List.Nodup.of_append_left hnd

/-- Witness for C3 (amended) at the cyclic two-page site `envCycle`. -/
theorem claim3_witness :
    ClosedUniverse envCycle cycleUniverse ∧
    IdentityCompletion envCycle cycleUniverse ∧
    (crawl envCycle cycleUniverse.toFinset.card
      (crawlInit envCycle.startUrl)).linksToProcess = [] ∧
    (crawl envCycle cycleUniverse.toFinset.card
      (crawlInit envCycle.startUrl)).processedLinks.Nodup := by
  have hU : ClosedUniverse envCycle cycleUniverse := by
    unfold ClosedUniverse
    exact ⟨by decide, by decide⟩
  have hid : IdentityCompletion envCycle cycleUniverse := by
    unfold IdentityCompletion
    decide
  exact ⟨hU, hid, (claim3_crawl_loop envCycle cycleUniverse hU).1,
    (claim3_crawl_loop envCycle cycleUniverse hU).2.2.2 hid⟩

end Markprompt
